import Mathlib

/-! # Installation-root lookups of `pkg/env/env.go`

A shallow embedding of the four lookups of package `env` (`BhojpurRoot`,
`BhojpurDataRoot`, `BhojpurMysqlRoot`, `BhojpurMysqlBaseDir`) together with the
parts of the Go standard library they call on a Unix system (`path.Dir`,
`filepath.Abs`, `filepath.Dir`, `strings.HasSuffix`, `os.Getenv`, `os.Setenv`,
`exec.LookPath`).

Go strings are byte sequences; they are modelled by Lean strings, which stand
for the strings that are valid UTF-8.  The library routines that scan a string
byte by byte are written over the character list of the string: the only
bytes they compare against are `/`, `.` and `:`, and in UTF-8 an ASCII byte
never occurs inside the encoding of another character, so scanning characters
gives what scanning bytes gives.

A function with an effect on the process (`os.Setenv`, and so
`BhojpurMysqlRoot` and `BhojpurMysqlBaseDir`) takes the process before the call
and returns the process after it next to its result.
-/

set_option autoImplicit false

/-! ## Go errors and results -/

/-- The Go `error` values that the lookups can see. -/
inductive GoError where
  /-- The value built by `errors.New(msg)`. -/
  | errorString (msg : String)
  /-- An error of the operating system, such as the one `os.Getwd` returns. -/
  | syscallError (op : String) (errno : Nat)
  /-- The value `&exec.Error{Name: name, Err: err}` of package `os/exec`. -/
  | execError (name : String) (err : GoError)
  deriving DecidableEq, Repr

/-- A Go result pair `(string, error)`; `none` is the `nil` error. -/
abbrev GoResult := String × Option GoError

/-- How a call ends: it returns a value, or the goroutine panics. -/
inductive Outcome (α : Type) where
  | ret (a : α)
  | panicked (msg : String)
  deriving DecidableEq, Repr

namespace errors

/-- Go's `errors.New`. -/
def New (msg : String) : GoError := GoError.errorString msg

end errors

/-! ## Package `strings` -/

namespace strings

/-- Go's `strings.HasSuffix(s, suffix)`:
`len(s) >= len(suffix) && s[len(s)-len(suffix):] == suffix`. -/
def HasSuffix (s suffix : String) : Bool :=
  decide (s.data.length ≥ suffix.data.length) &&
    decide (s.data.drop (s.data.length - suffix.data.length) = suffix.data)

/-- Go's `strings.HasPrefix(s, prefix)`:
`len(s) >= len(prefix) && s[:len(prefix)] == prefix`. -/
def HasPrefix (s pre : String) : Bool :=
  decide (s.data.length ≥ pre.data.length) &&
    decide (s.data.take pre.data.length = pre.data)

/-- The pieces of a character list between occurrences of `sep`. -/
def splitChars (sep : Char) : List Char → List (List Char)
  | [] => [[]]
  | c :: cs =>
    if c = sep then [] :: splitChars sep cs
    else
      match splitChars sep cs with
      | [] => [[c]]
      | x :: xs => (c :: x) :: xs

/-- Go's `strings.Split(s, sep)` for a one-byte separator. -/
def Split (s : String) (sep : Char) : List String :=
  (splitChars sep s.data).map String.mk

end strings

/-! ## Package `path` (and `path/filepath` on Unix) -/

namespace path

/-- The `..` case of `Clean` when it can backtrack, on the written part of the
buffer held last byte first:
`out.w--; for out.w > dotdot && out.index(out.w) != '/' { out.w-- }`. -/
def backtrack (dotdot : Nat) : List Char → List Char
  | [] => []
  | c :: out => if out.length > dotdot ∧ c ≠ '/' then backtrack dotdot out else out

/-- The copy loop of the default case of `Clean`:
`for ; r < n && path[r] != '/'; r++ { out.append(path[r]) }`.
Returns the unread input and the buffer. -/
def copyElem : List Char → List Char → List Char × List Char
  | [], out => ([], out)
  | c :: rest, out => if c = '/' then (c :: rest, out) else copyElem rest (c :: out)

/-- The main loop `for r < n { switch ... }` of `Clean`.  `rest` is `path[r:]`,
`out` is the written part `buf[0:w]` of the lazy buffer, last byte first (so
`out.w` is `out.length`), and the first argument bounds the number of
iterations. -/
def cleanLoop (rooted : Bool) : Nat → List Char → List Char → Nat → List Char
  | 0, _, out, _ => out
  | _ + 1, [], out, _ => out
  | fuel + 1, c :: rest, out, dotdot =>
    if c = '/' then
      -- empty path element
      cleanLoop rooted fuel rest out dotdot
    else if c = '.' ∧ (rest = [] ∨ rest.head? = some '/') then
      -- . element
      cleanLoop rooted fuel rest out dotdot
    else if c = '.' ∧ rest.head? = some '.' ∧
        (rest.tail = [] ∨ rest.tail.head? = some '/') then
      -- .. element: remove to last /
      if out.length > dotdot then
        cleanLoop rooted fuel rest.tail (backtrack dotdot out) dotdot
      else if rooted = false then
        let out1 := if out.length > 0 then '/' :: out else out
        let out2 := '.' :: '.' :: out1
        cleanLoop rooted fuel rest.tail out2 out2.length
      else
        cleanLoop rooted fuel rest.tail out dotdot
    else
      -- real path element: add slash if needed, copy element
      let out1 :=
        if (rooted = true ∧ out.length ≠ 1) ∨ (rooted = false ∧ out.length ≠ 0)
        then '/' :: out else out
      let st := copyElem (c :: rest) out1
      cleanLoop rooted fuel st.1 st.2 dotdot

/-- Go's `path.Clean` over the bytes of the path. -/
def cleanChars (p : List Char) : List Char :=
  match p with
  | [] => ['.']
  | c :: rest =>
    let out :=
      if c = '/' then cleanLoop true p.length rest ['/'] 1
      else cleanLoop false p.length p [] 0
    if out.length = 0 then ['.'] else out.reverse

/-- Go's `path.Clean`: the shortest path name equivalent to `path` by purely
lexical processing. -/
def Clean (p : String) : String := String.mk (cleanChars p.data)

/-- The part `path[:i+1]` of a path up to and including its last slash (the
first component of `path.Split`), on a list held last byte first. -/
def dropFile : List Char → List Char
  | [] => []
  | c :: rest => if c = '/' then c :: rest else dropFile rest

/-- Go's `path.Split`, first component: everything up to the final slash. -/
def splitDir (p : String) : String := String.mk (dropFile p.data.reverse).reverse

/-- Go's `path.Dir`: `dir, _ := Split(path); return Clean(dir)`. -/
def Dir (p : String) : String := Clean (splitDir p)

end path

namespace filepath

/-- Go's `filepath.IsAbs` on Unix: `strings.HasPrefix(path, "/")`. -/
def IsAbs (p : String) : Bool := strings.HasPrefix p "/"

/-- Go's `filepath.Clean`; on Unix it is the algorithm of `path.Clean`. -/
def Clean (p : String) : String := path.Clean p

/-- Go's `filepath.Dir` on Unix (the volume name is empty): the path up to
and including its last separator, cleaned. -/
def Dir (p : String) : String := Clean (path.splitDir p)

/-- Go's `filepath.Join(a, b)` on Unix: empty leading elements are ignored,
the rest is joined with `/` and cleaned; all empty gives the empty string. -/
def Join (a b : String) : String :=
  if a ≠ "" then Clean (a ++ "/" ++ b)
  else if b ≠ "" then Clean b
  else ""

/-- Go's `filepath.SplitList` on Unix:
`if path == "" { return []string{} }; return strings.Split(path, ":")`. -/
def SplitList (p : String) : List String :=
  if p = "" then [] else strings.Split p ':'

end filepath

/-! ## The process: environment, arguments, working directory, file system -/

/-- What the lookups read from the running process and its system. -/
structure World where
  /-- The process environment: the value of each variable that is set. -/
  environ : String → Option String
  /-- The argument vector `os.Args`. -/
  Args : List String
  /-- What `os.Getwd()` returns. -/
  Getwd : GoResult
  /-- The probe `findExecutable(file)` of `os/exec`: `none` (the `nil` error)
  when `file` is an executable regular file. -/
  findExecutable : String → Option GoError
  /-- Whether `os/exec` rejects an executable found relative to the current
  directory (`ErrDot`: Go 1.19 and later unless `GODEBUG=execerrdot=0`). -/
  execerrdot : Bool

namespace os

/-- Go's `os.Getenv`: the value of the variable, empty when it is not set. -/
def Getenv (w : World) (key : String) : String := (w.environ key).getD ""

/-- Go's `os.Setenv(key, value)` for a key and value the system accepts (a
non-empty key without `=`, no NUL byte; `"PATH"` with a value read from the
environment is such a pair): the variable is set, nothing else changes. -/
def Setenv (w : World) (key value : String) : World :=
  { w with environ := fun k => if k = key then some value else w.environ k }

end os

namespace filepath

/-- Go's `filepath.Abs` on Unix: an absolute path is cleaned, any other path
is joined to the working directory, and the error of `os.Getwd` is returned
as it is. -/
def Abs (w : World) (p : String) : GoResult :=
  if IsAbs p then (Clean p, none)
  else
    match w.Getwd with
    | (_, some err) => ("", some err)
    | (wd, none) => (Join wd p, none)

end filepath

namespace exec

/-- The error `exec.ErrNotFound`. -/
def ErrNotFound : GoError := errors.New "executable file not found in $PATH"

/-- The error `exec.ErrDot`. -/
def ErrDot : GoError := errors.New "cannot run executable found relative to current directory"

/-- The file that `exec.LookPath` probes in a directory of the search path:
`if dir == "" { dir = "." }; path := filepath.Join(dir, file)`
(Unix shell semantics: path element "" means "."). -/
def candidate (dir file : String) : String :=
  filepath.Join (if dir = "" then "." else dir) file

/-- The loop of `exec.LookPath` over the directories of the search path:
the first directory whose `file` is executable decides. -/
def lookIn (w : World) (file : String) : List String → GoResult
  | [] => ("", some (GoError.execError file ErrNotFound))
  | dir :: dirs =>
    let p := candidate dir file
    if w.findExecutable p = none then
      if filepath.IsAbs p = false ∧ w.execerrdot = true then
        (p, some (GoError.execError file ErrDot))
      else (p, none)
    else lookIn w file dirs

/-- Go's `exec.LookPath` on Unix. -/
def LookPath (w : World) (file : String) : GoResult :=
  if file.data.contains '/' then
    match w.findExecutable file with
    | none => (file, none)
    | some err => ("", some (GoError.execError file err))
  else lookIn w file (filepath.SplitList (os.Getenv w "PATH"))

end exec

/-! ## Package `env` -/

namespace env

/-- DefaultBhojpurDataRoot is the default value for BHOJPUR_ROOT environment
variable. -/
def DefaultBhojpurDataRoot : String := "/bhojpur"

/-- DefaultBhojpurRoot is only required for hooks. -/
def DefaultBhojpurRoot : String := "/usr/local/bhojpur"

/-- BhojpurRoot returns $BHOJPUR_ROOT or tries to guess its value if it is not
set.  The named results `root` and `err` are what a bare `return` gives back;
indexing an empty `os.Args` panics. -/
def BhojpurRoot (w : World) : Outcome GoResult :=
  let root := os.Getenv w "BHOJPUR_ROOT"
  if root ≠ "" then Outcome.ret (root, none)
  else
    match w.Args with
    | [] => Outcome.panicked "index out of range [0] with length 0"
    | arg0 :: _ =>
      match filepath.Abs w arg0 with
      | (_, some err) => Outcome.ret (root, some err)
      | (command, none) =>
        let dir := path.Dir command
        if strings.HasSuffix dir "/bin" then Outcome.ret (path.Dir dir, none)
        else Outcome.ret (DefaultBhojpurRoot, none)

/-- BhojpurDataRoot returns $BHOJPUR_DATAROOT or the default if
$BHOJPUR_DATAROOT is not set. -/
def BhojpurDataRoot (w : World) : String :=
  let dataRoot := os.Getenv w "BHOJPUR_DATAROOT"
  if dataRoot ≠ "" then dataRoot else DefaultBhojpurDataRoot

/-- BhojpurMysqlRoot returns the root for the MySQL database distribution; if
the variable is not set, it looks for mysqld in the path.  The second
component is the process after the call. -/
def BhojpurMysqlRoot (w : World) : GoResult × World :=
  let root := os.Getenv w "BHOJPUR_MYSQL_ROOT"
  if root ≠ "" then ((root, none), w)
  else
    let newPath := "/usr/sbin:" ++ os.Getenv w "PATH"
    let w1 := os.Setenv w "PATH" newPath
    match exec.LookPath w1 "mysqld" with
    | (_, some _) =>
      (("", some (errors.New
        "BHOJPUR_MYSQL_ROOT is not set and no mysqld could be found in your PATH")), w1)
    | (p, none) => ((filepath.Dir (filepath.Dir p), none), w1)

/-- BhojpurMysqlBaseDir returns the MySQL base directory.  The second
component is the process after the call. -/
def BhojpurMysqlBaseDir (w : World) : GoResult × World :=
  let root := os.Getenv w "BHOJPUR_MYSQL_BASEDIR"
  if root ≠ "" then ((root, none), w)
  else
    match BhojpurMysqlRoot w with
    | ((_, some _), w1) =>
      (("", some (errors.New
        "BHOJPUR_MYSQL_BASEDIR is not set. Please set $BHOJPUR_MYSQL_BASEDIR")), w1)
    | ((root, none), w1) => ((root, none), w1)

end env

/-- A message names a variable when the variable's name occurs in it. -/
def mentions (msg name : String) : Prop :=
  ∃ pre post : String, msg = pre ++ name ++ post

/-! ## Sample processes -/

/-- A file system whose only executable file is `file`; with the empty string
for `file` nothing that the locator probes is executable. -/
def onlyExecutable (file : String) : String → Option GoError :=
  fun p => if p = file then none else some (GoError.syscallError "stat" 2)

/-- A process with the given environment and program path, working directory
`/home/u`, and a single executable in the file system. -/
def sampleWorld (environ : String → Option String) (arg0 file : String)
    (dot : Bool) : World :=
  { environ := environ, Args := [arg0], Getwd := ("/home/u", none),
    findExecutable := onlyExecutable file, execerrdot := dot }

/-- The environment with no variable set. -/
def emptyEnviron : String → Option String := fun _ => none

/-- The environment with one variable set. -/
def oneVar (key value : String) : String → Option String :=
  fun k => if k = key then some value else none

/-! ## Facts about the library routines -/

theorem getenv_of_set {w : World} {key V : String} (h : w.environ key = some V) :
    os.Getenv w key = V := by
  simp [os.Getenv, h]

theorem getenv_setenv_same (w : World) (key value : String) :
    os.Getenv (os.Setenv w key value) key = value := by
  simp [os.Getenv, os.Setenv]

theorem getenv_setenv_other (w : World) (key value k : String) (h : k ≠ key) :
    os.Getenv (os.Setenv w key value) k = os.Getenv w k := by
  simp [os.Getenv, os.Setenv, h]

theorem hasSuffix_iff (s suffix : String) :
    strings.HasSuffix s suffix = true ↔ ∃ pre : String, s = pre ++ suffix := by
  unfold strings.HasSuffix
  simp only [Bool.and_eq_true, decide_eq_true_eq]
  constructor
  · rintro ⟨_, h2⟩
    refine ⟨String.mk (s.data.take (s.data.length - suffix.data.length)), ?_⟩
    apply String.ext
    have h := List.take_append_drop (s.data.length - suffix.data.length) s.data
    rw [h2] at h
    rw [String.data_append]
    exact h.symm
  · rintro ⟨pre, rfl⟩
    simp

/-! ### The library model on the test tables of the Go distribution -/

/-- The model of `path.Clean` agrees with the table `cleantests` of Go's
`path_test.go`. -/
theorem clean_go_table :
    path.Clean "" = "." ∧
    path.Clean "abc" = "abc" ∧
    path.Clean "abc/def" = "abc/def" ∧
    path.Clean "a/b/c" = "a/b/c" ∧
    path.Clean "." = "." ∧
    path.Clean ".." = ".." ∧
    path.Clean "../.." = "../.." ∧
    path.Clean "../../abc" = "../../abc" ∧
    path.Clean "/abc" = "/abc" ∧
    path.Clean "/" = "/" ∧
    path.Clean "abc/" = "abc" ∧
    path.Clean "abc/def/" = "abc/def" ∧
    path.Clean "a/b/c/" = "a/b/c" ∧
    path.Clean "./" = "." ∧
    path.Clean "../" = ".." ∧
    path.Clean "../../" = "../.." ∧
    path.Clean "/abc/" = "/abc" ∧
    path.Clean "abc//def//ghi" = "abc/def/ghi" ∧
    path.Clean "//abc" = "/abc" ∧
    path.Clean "///abc" = "/abc" ∧
    path.Clean "//abc//" = "/abc" ∧
    path.Clean "abc//" = "abc" ∧
    path.Clean "abc/./def" = "abc/def" ∧
    path.Clean "/./abc/def" = "/abc/def" ∧
    path.Clean "abc/." = "abc" ∧
    path.Clean "abc/def/ghi/../jkl" = "abc/def/jkl" ∧
    path.Clean "abc/def/../ghi/../jkl" = "abc/jkl" ∧
    path.Clean "abc/def/.." = "abc" ∧
    path.Clean "abc/def/../.." = "." ∧
    path.Clean "/abc/def/../.." = "/" ∧
    path.Clean "abc/def/../../.." = ".." ∧
    path.Clean "/abc/def/../../.." = "/" ∧
    path.Clean "abc/def/../../../ghi/jkl/../../../mno" = "../../mno" ∧
    path.Clean "abc/./../def" = "def" ∧
    path.Clean "abc//./../def" = "def" ∧
    path.Clean "abc/../../././../def" = "../../def" := by
  decide

/-- The model of `path.Dir` agrees with the table `dirtests` of Go's
`path_test.go`. -/
theorem dir_go_table :
    path.Dir "" = "." ∧
    path.Dir "." = "." ∧
    path.Dir "/" = "/" ∧
    path.Dir "////" = "/" ∧
    path.Dir "/foo" = "/" ∧
    path.Dir "x/" = "x" ∧
    path.Dir "abc" = "." ∧
    path.Dir "abc/def" = "abc" ∧
    path.Dir "abc////def" = "abc" ∧
    path.Dir "a/b/.x" = "a/b" ∧
    path.Dir "a/b/c." = "a/b" ∧
    path.Dir "a/b/c.x" = "a/b" := by
  decide

/-! ### The search path and the locator -/

theorem splitChars_append (sep : Char) (a b : List Char) (h : sep ∉ a) :
    strings.splitChars sep (a ++ sep :: b) = a :: strings.splitChars sep b := by
  induction a with
  | nil => simp [strings.splitChars]
  | cons c a ih =>
    have hc : c ≠ sep := fun e => h (by simp [e])
    have ha : sep ∉ a := fun e => h (by simp [e])
    simp [strings.splitChars, hc, ih ha]

/-- The pieces of a search path that starts with `/usr/sbin:`. -/
theorem split_usr_sbin (X : String) :
    strings.Split ("/usr/sbin:" ++ X) ':' = "/usr/sbin" :: strings.Split X ':' := by
  have hlit : "/usr/sbin:".data = ['/', 'u', 's', 'r', '/', 's', 'b', 'i', 'n'] ++ [':'] := rfl
  have hsplit := splitChars_append ':' ['/', 'u', 's', 'r', '/', 's', 'b', 'i', 'n'] X.data
    (by decide)
  simp only [strings.Split, String.data_append, hlit,
    List.append_assoc, List.singleton_append, hsplit, List.map_cons]
  rfl

/-- The directories of a search path that starts with `/usr/sbin:`. -/
theorem splitList_usr_sbin (X : String) :
    filepath.SplitList ("/usr/sbin:" ++ X) = "/usr/sbin" :: strings.Split X ':' := by
  have hlit : "/usr/sbin:".data = ['/', 'u', 's', 'r', '/', 's', 'b', 'i', 'n'] ++ [':'] := rfl
  have hne : "/usr/sbin:" ++ X ≠ "" := by
    intro h
    have := congrArg String.data h
    simp [hlit] at this
  simp only [filepath.SplitList, if_neg hne, split_usr_sbin]

theorem lookIn_setenv (w : World) (key value file : String) (dirs : List String) :
    exec.lookIn (os.Setenv w key value) file dirs = exec.lookIn w file dirs := by
  induction dirs with
  | nil => rfl
  | cons d ds ih => simp only [exec.lookIn, ih]; rfl

/-- The locator call of BhojpurMysqlRoot, made after PATH was set, searches
`/usr/sbin` and then the directories of the previous PATH. -/
theorem lookPath_after_setenv (w : World) :
    exec.LookPath (os.Setenv w "PATH" ("/usr/sbin:" ++ os.Getenv w "PATH")) "mysqld"
      = exec.lookIn w "mysqld" ("/usr/sbin" :: strings.Split (os.Getenv w "PATH") ':') := by
  have hc : "mysqld".data.contains '/' = false := by decide
  simp only [exec.LookPath, hc, getenv_setenv_same, splitList_usr_sbin, lookIn_setenv]
  simp

theorem lookIn_dup (w : World) (file d : String) (ds : List String) :
    exec.lookIn w file (d :: d :: ds) = exec.lookIn w file (d :: ds) := by
  simp only [exec.lookIn]
  split_ifs <;> rfl

/-- When the loop of the locator ends with an error: no directory holds the
file, or the first directory that holds it gives a relative path while
`ErrDot` is in force. -/
theorem lookIn_err_iff (w : World) (file : String) (dirs : List String) :
    (exec.lookIn w file dirs).2 ≠ none ↔
      (∀ dir ∈ dirs, w.findExecutable (exec.candidate dir file) ≠ none) ∨
      (w.execerrdot = true ∧ ∃ (pre : List String) (dir : String) (post : List String),
        dirs = pre ++ dir :: post ∧
        (∀ d ∈ pre, w.findExecutable (exec.candidate d file) ≠ none) ∧
        w.findExecutable (exec.candidate dir file) = none ∧
        filepath.IsAbs (exec.candidate dir file) = false) := by
  induction dirs with
  | nil => simp [exec.lookIn]
  | cons d ds ih =>
    by_cases hx : w.findExecutable (exec.candidate d file) = none
    · have hleft : ¬ ∀ dir ∈ d :: ds, w.findExecutable (exec.candidate dir file) ≠ none :=
        fun h => h d (by simp) hx
      simp only [exec.lookIn, hx, if_true, hleft, false_or]
      constructor
      · intro h
        split_ifs at h with h1
        · exact ⟨h1.2, [], d, ds, rfl, by simp, hx, h1.1⟩
        · simp at h
      · rintro ⟨hdot, pre, dir, post, hdirs, hpre, -, habs⟩
        cases pre with
        | nil =>
          simp only [List.nil_append, List.cons.injEq] at hdirs
          rw [← hdirs.1] at habs
          rw [if_pos ⟨habs, hdot⟩]
          simp
        | cons e pre =>
          simp only [List.cons_append, List.cons.injEq] at hdirs
          exact absurd hx (hdirs.1 ▸ hpre e (by simp))
    · simp only [exec.lookIn, hx, if_false, ih]
      constructor
      · rintro (h | ⟨hdot, pre, dir, post, hdirs, hpre, hdir, habs⟩)
        · left
          intro dir hmem
          rcases List.mem_cons.1 hmem with rfl | hmem
          · exact hx
          · exact h dir hmem
        · right
          refine ⟨hdot, d :: pre, dir, post, by simp [hdirs], ?_, hdir, habs⟩
          intro e hmem
          rcases List.mem_cons.1 hmem with rfl | hmem
          · exact hx
          · exact hpre e hmem
      · rintro (h | ⟨hdot, pre, dir, post, hdirs, hpre, hdir, habs⟩)
        · left
          intro dir hmem
          exact h dir (List.mem_cons_of_mem _ hmem)
        · right
          cases pre with
          | nil =>
            simp only [List.nil_append, List.cons.injEq] at hdirs
            exact absurd (hdirs.1 ▸ hdir) hx
          | cons e pre =>
            simp only [List.cons_append, List.cons.injEq] at hdirs
            exact ⟨hdot, pre, dir, post, hdirs.2, fun e2 h2 => hpre e2 (List.mem_cons_of_mem _ h2),
              hdir, habs⟩

/-! ### `path.Clean` on a cleaned absolute path followed by more elements -/

namespace path

theorem copyElem_append (A S out : List Char) :
    copyElem (A ++ '/' :: S) out
      = ((copyElem A out).1 ++ '/' :: S, (copyElem A out).2) := by
  induction A generalizing out with
  | nil => simp [copyElem]
  | cons c A ih =>
    by_cases hc : c = '/'
    · simp [copyElem, hc]
    · simp [copyElem, hc, ih]

theorem copyElem_length (A out : List Char) : (copyElem A out).1.length ≤ A.length := by
  induction A generalizing out with
  | nil => simp [copyElem]
  | cons c A ih =>
    by_cases hc : c = '/'
    · simp [copyElem, hc]
    · simp only [copyElem, hc, if_false, List.length_cons]
      exact Nat.le_succ_of_le (ih _)

theorem copyElem_cons_length (c : Char) (A out : List Char) (hc : c ≠ '/') :
    (copyElem (c :: A) out).1.length ≤ A.length := by
  simp only [copyElem, hc, if_false]
  exact copyElem_length _ _

/-- The loop gives the same buffer for every bound that is at least the length
of the unread input. -/
theorem cleanLoop_fuel (rooted : Bool) (f g : Nat) (rest out : List Char) (dd : Nat)
    (hf : rest.length ≤ f) (hg : rest.length ≤ g) :
    cleanLoop rooted f rest out dd = cleanLoop rooted g rest out dd := by
  induction f generalizing g rest out dd with
  | zero =>
    have : rest = [] := List.eq_nil_of_length_eq_zero (Nat.le_zero.1 hf)
    subst this
    cases g <;> simp [cleanLoop]
  | succ f ih =>
    cases rest with
    | nil => cases g <;> simp [cleanLoop]
    | cons c rest =>
      cases g with
      | zero => simp at hg
      | succ g =>
        simp only [List.length_cons, Nat.add_le_add_iff_right] at hf hg
        have htail : rest.tail.length ≤ rest.length := by simp
        simp only [cleanLoop]
        split_ifs <;>
          first
          | exact ih g _ _ _ hf hg
          | exact ih g _ _ _ (le_trans htail hf) (le_trans htail hg)
          | exact ih g _ _ _
              (le_trans (copyElem_cons_length c rest _ (by assumption)) hf)
              (le_trans (copyElem_cons_length c rest _ (by assumption)) hg)

theorem cleanLoop_nil (rooted : Bool) (f : Nat) (out : List Char) (dd : Nat) :
    cleanLoop rooted f [] out dd = out := by
  cases f <;> simp [cleanLoop]

theorem head_slash_append (X S : List Char) :
    (X ++ '/' :: S = [] ∨ (X ++ '/' :: S).head? = some '/')
      ↔ (X = [] ∨ X.head? = some '/') := by
  cases X <;> simp

theorem head_dot_append (X S : List Char) :
    (X ++ '/' :: S).head? = some '.' ↔ X.head? = some '.' := by
  cases X <;> simp

theorem dotdot_cond_append (X S : List Char) :
    ((X ++ '/' :: S).head? = some '.' ∧
        ((X ++ '/' :: S).tail = [] ∨ (X ++ '/' :: S).tail.head? = some '/'))
      ↔ (X.head? = some '.' ∧ (X.tail = [] ∨ X.tail.head? = some '/')) := by
  cases X with
  | nil => simp
  | cons a X =>
    simp only [List.cons_append, List.head?_cons, List.tail_cons, head_slash_append]

theorem tail_append_of_head (X S : List Char) (c : Char) (h : X.head? = some c) :
    (X ++ '/' :: S).tail = X.tail ++ '/' :: S := by
  cases X with
  | nil => simp at h
  | cons a X => simp

theorem cleanLoop_step (rooted : Bool) (fuel : Nat) (c : Char) (rest out : List Char)
    (dotdot : Nat) :
    cleanLoop rooted (fuel + 1) (c :: rest) out dotdot =
      if c = '/' then cleanLoop rooted fuel rest out dotdot
      else if c = '.' ∧ (rest = [] ∨ rest.head? = some '/') then
        cleanLoop rooted fuel rest out dotdot
      else if c = '.' ∧ rest.head? = some '.' ∧
          (rest.tail = [] ∨ rest.tail.head? = some '/') then
        if out.length > dotdot then
          cleanLoop rooted fuel rest.tail (backtrack dotdot out) dotdot
        else if rooted = false then
          cleanLoop rooted fuel rest.tail
            ('.' :: '.' :: (if out.length > 0 then '/' :: out else out))
            ('.' :: '.' :: (if out.length > 0 then '/' :: out else out)).length
        else
          cleanLoop rooted fuel rest.tail out dotdot
      else
        cleanLoop rooted fuel
          (copyElem (c :: rest)
            (if (rooted = true ∧ out.length ≠ 1) ∨ (rooted = false ∧ out.length ≠ 0)
              then '/' :: out else out)).1
          (copyElem (c :: rest)
            (if (rooted = true ∧ out.length ≠ 1) ∨ (rooted = false ∧ out.length ≠ 0)
              then '/' :: out else out)).2 dotdot := by
  rw [cleanLoop]

/-- On an absolute path, cleaning `A` followed by `/S` is cleaning `A` and
then going on with `/S` from the buffer reached. -/
theorem cleanLoop_append (n : Nat) : ∀ (A S out : List Char) (dd f g : Nat),
    A.length ≤ n → (A ++ '/' :: S).length ≤ f → ('/' :: S).length ≤ g →
    cleanLoop true f (A ++ '/' :: S) out dd
      = cleanLoop true g ('/' :: S) (cleanLoop true n A out dd) dd := by
  induction n with
  | zero =>
    intro A S out dd f g hA hf hg
    have : A = [] := List.eq_nil_of_length_eq_zero (Nat.le_zero.1 hA)
    subst this
    simp only [List.nil_append, cleanLoop_nil]
    exact cleanLoop_fuel true f g _ out dd (by simpa using hf) hg
  | succ n ih =>
    intro A S out dd f g hA hf hg
    cases A with
    | nil =>
      simp only [List.nil_append, cleanLoop_nil]
      exact cleanLoop_fuel true f g _ out dd (by simpa using hf) hg
    | cons c A =>
      cases f with
      | zero => simp at hf
      | succ f =>
        simp only [List.length_cons, Nat.add_le_add_iff_right] at hA
        have hf2 : (A ++ '/' :: S).length ≤ f := by simpa using hf
        have hlen : (A ++ '/' :: S).length = A.length + (S.length + 1) := by simp
        rw [List.cons_append, cleanLoop_step, cleanLoop_step]
        by_cases h1 : c = '/'
        · rw [if_pos h1, if_pos h1]
          exact ih A S out dd f g hA hf2 hg
        · rw [if_neg h1, if_neg h1]
          by_cases h2 : c = '.' ∧ (A = [] ∨ A.head? = some '/')
          · rw [if_pos h2, if_pos ⟨h2.1, (head_slash_append A S).2 h2.2⟩]
            exact ih A S out dd f g hA hf2 hg
          · rw [if_neg h2, if_neg (fun h => h2 ⟨h.1, (head_slash_append A S).1 h.2⟩)]
            by_cases h3 : c = '.' ∧ A.head? = some '.' ∧
                (A.tail = [] ∨ A.tail.head? = some '/')
            · have h3b := (dotdot_cond_append A S).2 h3.2
              rw [if_pos h3, if_pos ⟨h3.1, h3b.1, h3b.2⟩,
                tail_append_of_head A S '.' h3.2.1]
              have hA2 : A.tail.length ≤ n := le_trans (by simp) hA
              have hf3 : (A.tail ++ '/' :: S).length ≤ f := by
                have : A.tail.length ≤ A.length := by simp
                simp only [List.length_append, List.length_cons] at hf2 ⊢
                omega
              by_cases h4 : out.length > dd
              · rw [if_pos h4, if_pos h4]
                exact ih _ S _ dd f g hA2 hf3 hg
              · rw [if_neg h4, if_neg h4, if_neg (by decide), if_neg (by decide)]
                exact ih _ S _ dd f g hA2 hf3 hg
            · rw [if_neg h3, if_neg (fun h => h3 ⟨h.1, (dotdot_cond_append A S).1 h.2⟩),
                ← List.cons_append, copyElem_append]
              refine ih _ S _ dd f g (le_trans (copyElem_cons_length c A _ h1) hA)
                (le_trans ?_ hf2) hg
              simp only [List.length_append, List.length_cons]
              exact Nat.add_le_add_right (copyElem_cons_length c A _ h1) _

/-- Cleaning a cleaned absolute path followed by `/S` goes on with `/S` from
the buffer that holds the path. -/
theorem cleanChars_append (R S : List Char) (hR : cleanChars ('/' :: R) = '/' :: R) :
    cleanChars ('/' :: R ++ '/' :: S) =
      if (cleanLoop true (S.length + 1) ('/' :: S) ('/' :: R).reverse 1).length = 0
      then ['.']
      else (cleanLoop true (S.length + 1) ('/' :: S) ('/' :: R).reverse 1).reverse := by
  have hout : cleanLoop true (R.length + 1) R ['/'] 1 = ('/' :: R).reverse := by
    simp only [cleanChars, List.length_cons, if_true] at hR
    split_ifs at hR with h0
    · simp at hR
    · rw [← hR, List.reverse_reverse]
  have happ := cleanLoop_append (R.length + 1) R S ['/'] 1
    ('/' :: R ++ '/' :: S).length (S.length + 1) (Nat.le_succ _) (by simp) (by simp)
  rw [hout] at happ
  simp only [cleanChars, List.cons_append, if_true]
  rw [← happ]
  simp

theorem cleanChars_slash (R : List Char) (hR : cleanChars ('/' :: R) = '/' :: R) :
    cleanChars ('/' :: R ++ ['/']) = '/' :: R := by
  rw [cleanChars_append R [] hR]
  simp [cleanLoop]

theorem cleanChars_sbin (R : List Char) (hR : cleanChars ('/' :: R) = '/' :: R)
    (hne : R ≠ []) :
    cleanChars ('/' :: R ++ ['/', 's', 'b', 'i', 'n', '/'])
      = '/' :: R ++ ['/', 's', 'b', 'i', 'n'] := by
  have hlen : R.length ≠ 0 := fun h => hne (List.eq_nil_of_length_eq_zero h)
  rw [cleanChars_append R _ hR]
  simp [cleanLoop, copyElem, hlen]

end path

namespace filepath

/-- For a cleaned absolute directory `R` other than the root, two `Dir` steps
from `R/sbin/mysqld` give `R`. -/
theorem dir_dir_sbin_mysqld (R : String) (habs : IsAbs R = true)
    (hclean : Clean R = R) (hne : R ≠ "/") :
    Dir (Dir (R ++ "/sbin/mysqld")) = R := by
  obtain ⟨cs⟩ := R
  have hlit : "/sbin/mysqld".data
      = ['/', 's', 'b', 'i', 'n', '/', 'm', 'y', 's', 'q', 'l', 'd'] := rfl
  cases cs with
  | nil => simp [IsAbs, strings.HasPrefix] at habs
  | cons c R =>
    have hc : c = '/' := by
      have h1 : "/".data = ['/'] := rfl
      simp [IsAbs, strings.HasPrefix, h1] at habs
      exact habs
    subst hc
    have hR : path.cleanChars ('/' :: R) = '/' :: R := by
      have := congrArg String.data hclean
      simpa [Clean, path.Clean] using this
    have hne2 : R ≠ [] := by
      intro h
      apply hne
      rw [h]
    have hsbin := path.cleanChars_sbin R hR hne2
    have hslash := path.cleanChars_slash R hR
    have step1 : Dir (String.mk ('/' :: R) ++ "/sbin/mysqld")
        = String.mk ('/' :: R ++ ['/', 's', 'b', 'i', 'n']) := by
      apply String.ext
      simp only [Dir, Clean, path.Clean, path.splitDir, String.data_append, hlit]
      simp only [List.reverse_append, List.reverse_cons, List.reverse_nil, List.nil_append,
        List.cons_append, path.dropFile]
      simp only [Char.reduceEq, if_false, if_true]
      simpa using hsbin
    rw [step1]
    apply String.ext
    simp only [Dir, Clean, path.Clean, path.splitDir]
    simp only [List.reverse_append, List.reverse_cons, List.reverse_nil, List.nil_append,
      List.cons_append, path.dropFile]
    simp only [Char.reduceEq, if_false, if_true]
    simpa using hslash

end filepath

/-! ## The platform root -/

namespace env

/-- C1: whenever BHOJPUR_ROOT is set to a non-empty value V, BhojpurRoot
returns (V, nil), whatever the argument vector, the working directory and the
rest of the process are; V is returned as it is. -/
theorem BhojpurRoot_override (w : World) (V : String)
    (hset : w.environ "BHOJPUR_ROOT" = some V) (hV : V ≠ "") :
    BhojpurRoot w = Outcome.ret (V, none) := by
  simp [BhojpurRoot, getenv_of_set hset, hV]

theorem BhojpurRoot_override_witness :
    BhojpurRoot { environ := oneVar "BHOJPUR_ROOT" "/opt/bhojpur/", Args := [],
                  Getwd := ("", some (GoError.syscallError "getwd" 2)),
                  findExecutable := fun _ => none, execerrdot := true }
      = Outcome.ret ("/opt/bhojpur/", none) :=
  BhojpurRoot_override _ "/opt/bhojpur/" (by decide) (by decide)

/-- C2: with BHOJPUR_ROOT unset or empty and os.Args[0] resolved by
filepath.Abs to `command` without error, let D be path.Dir(command).  If D
ends with "/bin" BhojpurRoot returns (path.Dir(D), nil), otherwise it returns
("/usr/local/bhojpur", nil).  The parent of "/opt/x/bin" is "/opt/x" and the
parent of "/bin" is "/"; "/usr/sbin" and "/" do not end with "/bin". -/
theorem BhojpurRoot_guess (w : World) (arg0 : String) (rest : List String)
    (command D : String)
    (henv : os.Getenv w "BHOJPUR_ROOT" = "")
    (hargs : w.Args = arg0 :: rest)
    (habs : filepath.Abs w arg0 = (command, none))
    (hD : path.Dir command = D) :
    ((∃ pre : String, D = pre ++ "/bin") →
        BhojpurRoot w = Outcome.ret (path.Dir D, none)) ∧
    ((¬ ∃ pre : String, D = pre ++ "/bin") →
        BhojpurRoot w = Outcome.ret ("/usr/local/bhojpur", none)) ∧
    path.Dir "/opt/x/bin" = "/opt/x" ∧ path.Dir "/bin" = "/" ∧
    (¬ ∃ pre : String, "/usr/sbin" = pre ++ "/bin") ∧
    (¬ ∃ pre : String, "/" = pre ++ "/bin") := by
  refine ⟨?_, ?_, by decide, by decide, ?_, ?_⟩
  · intro h
    have hs := (hasSuffix_iff D "/bin").2 h
    simp [BhojpurRoot, henv, hargs, habs, hD, hs]
  · intro h
    have hs : strings.HasSuffix D "/bin" = false := by
      cases hb : strings.HasSuffix D "/bin"
      · rfl
      · exact absurd ((hasSuffix_iff D "/bin").1 hb) h
    simp [BhojpurRoot, henv, hargs, habs, hD, hs, DefaultBhojpurRoot]
  · rw [← hasSuffix_iff]; decide
  · rw [← hasSuffix_iff]; decide

theorem BhojpurRoot_guess_witness :
    BhojpurRoot (sampleWorld emptyEnviron "/opt/x/bin/platform" "" true)
        = Outcome.ret ("/opt/x", none) ∧
    BhojpurRoot (sampleWorld emptyEnviron "sbin/platform" "" true)
        = Outcome.ret ("/usr/local/bhojpur", none) := by
  constructor
  · have h := BhojpurRoot_guess (sampleWorld emptyEnviron "/opt/x/bin/platform" "" true)
      "/opt/x/bin/platform" [] "/opt/x/bin/platform" "/opt/x/bin"
      (by decide) rfl (by decide) (by decide)
    rw [h.1 ⟨"/opt/x", by decide⟩]
    decide
  · have h := BhojpurRoot_guess (sampleWorld emptyEnviron "sbin/platform" "" true)
      "sbin/platform" [] "/home/u/sbin/platform" "/home/u/sbin"
      (by decide) rfl (by decide) (by decide)
    exact h.2.1 (by rw [← hasSuffix_iff]; decide)

/-- C3: with BHOJPUR_ROOT unset or empty, when filepath.Abs(os.Args[0])
fails with error E, BhojpurRoot returns the empty root together with exactly
E; the empty root is not the default "/usr/local/bhojpur". -/
theorem BhojpurRoot_abs_error (w : World) (arg0 : String) (rest : List String)
    (p : String) (E : GoError)
    (henv : os.Getenv w "BHOJPUR_ROOT" = "")
    (hargs : w.Args = arg0 :: rest)
    (habs : filepath.Abs w arg0 = (p, some E)) :
    BhojpurRoot w = Outcome.ret ("", some E) ∧
    BhojpurRoot w ≠ Outcome.ret (DefaultBhojpurRoot, some E) ∧
    BhojpurRoot w ≠ Outcome.ret (DefaultBhojpurRoot, none) := by
  have h : BhojpurRoot w = Outcome.ret ("", some E) := by
    simp [BhojpurRoot, henv, hargs, habs]
  rw [h]
  refine ⟨rfl, ?_, ?_⟩ <;> simp [DefaultBhojpurRoot]

theorem BhojpurRoot_abs_error_witness :
    BhojpurRoot { environ := emptyEnviron, Args := ["platform"],
                  Getwd := ("", some (GoError.syscallError "getwd" 2)),
                  findExecutable := fun _ => none, execerrdot := true }
      = Outcome.ret ("", some (GoError.syscallError "getwd" 2)) :=
  (BhojpurRoot_abs_error _ "platform" [] "" (GoError.syscallError "getwd" 2)
    (by decide) rfl (by decide)).1

/-! ## The data root -/

/-- C4: BhojpurDataRoot is a total function of the process that returns a
string and no error: it is the value V of BHOJPUR_DATAROOT when that is set
and non-empty, "/bhojpur" when the variable is unset or empty, and so never
the empty string. -/
theorem BhojpurDataRoot_spec (w : World) :
    (∀ V : String, w.environ "BHOJPUR_DATAROOT" = some V → V ≠ "" →
        BhojpurDataRoot w = V) ∧
    (w.environ "BHOJPUR_DATAROOT" = none ∨ w.environ "BHOJPUR_DATAROOT" = some "" →
        BhojpurDataRoot w = "/bhojpur") ∧
    BhojpurDataRoot w ≠ "" := by
  refine ⟨?_, ?_, ?_⟩
  · intro V hset hV
    simp [BhojpurDataRoot, getenv_of_set hset, hV]
  · rintro (h | h) <;> simp [BhojpurDataRoot, os.Getenv, h, DefaultBhojpurDataRoot]
  · unfold BhojpurDataRoot
    simp only []
    split
    · assumption
    · decide

theorem BhojpurDataRoot_spec_witness :
    BhojpurDataRoot (sampleWorld (oneVar "BHOJPUR_DATAROOT" "/data/") "x" "" true)
      = "/data/" :=
  (BhojpurDataRoot_spec _).1 "/data/" (by decide) (by decide)

/-! ## The database engine root -/

/-- C5: whenever BHOJPUR_MYSQL_ROOT is set to a non-empty value V,
BhojpurMysqlRoot returns (V, nil), whatever PATH holds and whatever the file
system holds. -/
theorem BhojpurMysqlRoot_override (w : World) (V : String)
    (hset : w.environ "BHOJPUR_MYSQL_ROOT" = some V) (hV : V ≠ "") :
    (BhojpurMysqlRoot w).1 = (V, none) := by
  simp [BhojpurMysqlRoot, getenv_of_set hset, hV]

theorem BhojpurMysqlRoot_override_witness :
    (BhojpurMysqlRoot (sampleWorld (oneVar "BHOJPUR_MYSQL_ROOT" "/opt/mysql") "x" "" true)).1
      = ("/opt/mysql", none) :=
  BhojpurMysqlRoot_override _ "/opt/mysql" (by decide) (by decide)

/-- The shape of every failure of BhojpurMysqlRoot. -/
theorem mysqlRoot_error_shape (w : World) (h : (BhojpurMysqlRoot w).1.2 ≠ none) :
    (BhojpurMysqlRoot w).1 = ("", some (errors.New
      "BHOJPUR_MYSQL_ROOT is not set and no mysqld could be found in your PATH")) := by
  unfold BhojpurMysqlRoot at h ⊢
  simp only [] at h ⊢
  split_ifs at h ⊢ with h1
  · simp at h
  · rcases hl : exec.LookPath (os.Setenv w "PATH" ("/usr/sbin:" ++ os.Getenv w "PATH"))
      "mysqld" with ⟨p, e⟩
    rw [hl] at h
    cases e with
    | none => simp at h
    | some e => rfl

/-- The process after a call of BhojpurMysqlRoot that takes the fallback
branch. -/
theorem mysqlRoot_world_fallback (w : World)
    (h0 : os.Getenv w "BHOJPUR_MYSQL_ROOT" = "") :
    (BhojpurMysqlRoot w).2
      = os.Setenv w "PATH" ("/usr/sbin:" ++ os.Getenv w "PATH") := by
  unfold BhojpurMysqlRoot
  simp only [h0]
  rw [if_neg (by simp)]
  rcases hl : exec.LookPath (os.Setenv w "PATH" ("/usr/sbin:" ++ os.Getenv w "PATH"))
    "mysqld" with ⟨p, e⟩
  cases e <;> rfl

/-- The process after a call of BhojpurMysqlRoot that returns the override. -/
theorem mysqlRoot_world_override (w : World)
    (h0 : os.Getenv w "BHOJPUR_MYSQL_ROOT" ≠ "") :
    BhojpurMysqlRoot w = ((os.Getenv w "BHOJPUR_MYSQL_ROOT", none), w) := by
  unfold BhojpurMysqlRoot
  simp only []
  rw [if_pos h0]

/-- BhojpurMysqlRoot fails exactly in the fallback branch when the locator
returns an error. -/
theorem mysqlRoot_error_iff (w : World) :
    (BhojpurMysqlRoot w).1.2 ≠ none ↔
      os.Getenv w "BHOJPUR_MYSQL_ROOT" = "" ∧
      (exec.LookPath (os.Setenv w "PATH" ("/usr/sbin:" ++ os.Getenv w "PATH"))
        "mysqld").2 ≠ none := by
  unfold BhojpurMysqlRoot
  simp only []
  split_ifs with h1
  · simp [h1]
  · have h0 : os.Getenv w "BHOJPUR_MYSQL_ROOT" = "" := not_not.1 h1
    rcases hl : exec.LookPath (os.Setenv w "PATH" ("/usr/sbin:" ++ os.Getenv w "PATH"))
      "mysqld" with ⟨p, e⟩
    cases e <;> simp [h0]

/-- C6: with BHOJPUR_MYSQL_ROOT unset or empty, when the locator (called on
the search path with "/usr/sbin" prepended) returns the path p without error,
BhojpurMysqlRoot returns (filepath.Dir(filepath.Dir(p)), nil); when p is
R + "/sbin/mysqld" for a cleaned absolute directory R other than "/", that
result is exactly (R, nil). -/
theorem BhojpurMysqlRoot_located (w : World) (p : String)
    (henv : os.Getenv w "BHOJPUR_MYSQL_ROOT" = "")
    (hlook : exec.LookPath (os.Setenv w "PATH" ("/usr/sbin:" ++ os.Getenv w "PATH"))
      "mysqld" = (p, none)) :
    (BhojpurMysqlRoot w).1 = (filepath.Dir (filepath.Dir p), none) ∧
    (∀ R : String, p = R ++ "/sbin/mysqld" → filepath.Clean R = R →
      filepath.IsAbs R = true → R ≠ "/" → (BhojpurMysqlRoot w).1 = (R, none)) := by
  have h : (BhojpurMysqlRoot w).1 = (filepath.Dir (filepath.Dir p), none) := by
    simp [BhojpurMysqlRoot, henv, hlook]
  refine ⟨h, ?_⟩
  intro R hp hclean habs hne
  rw [h, hp, filepath.dir_dir_sbin_mysqld R habs hclean hne]

theorem BhojpurMysqlRoot_located_witness :
    (BhojpurMysqlRoot
      (sampleWorld (oneVar "PATH" "/c:/a/b/sbin") "x" "/a/b/sbin/mysqld" true)).1
      = ("/a/b", none) :=
  (BhojpurMysqlRoot_located
    (sampleWorld (oneVar "PATH" "/c:/a/b/sbin") "x" "/a/b/sbin/mysqld" true)
    "/a/b/sbin/mysqld" (by decide) (by decide)).2 "/a/b" (by decide) (by decide)
    (by decide) (by decide)

/-- C7, as stated, fails: with Go's ErrDot rule in force, PATH unset and an
executable `mysqld` in the current directory, the search path after the call
is "/usr/sbin:" whose empty last element means ".", that directory holds the
engine binary, and BhojpurMysqlRoot fails all the same. -/
theorem BhojpurMysqlRoot_fails_with_binary_on_path :
    (BhojpurMysqlRoot (sampleWorld emptyEnviron "x" "mysqld" true)).1
      = ("", some (errors.New
          "BHOJPUR_MYSQL_ROOT is not set and no mysqld could be found in your PATH")) ∧
    (∃ dir ∈ filepath.SplitList
        (os.Getenv (BhojpurMysqlRoot (sampleWorld emptyEnviron "x" "mysqld" true)).2 "PATH"),
      (sampleWorld emptyEnviron "x" "mysqld" true).findExecutable
        (exec.candidate dir "mysqld") = none) ∧
    ¬ (∀ w : World, (BhojpurMysqlRoot w).1.2 ≠ none →
        os.Getenv w "BHOJPUR_MYSQL_ROOT" = "" ∧
        ∀ dir ∈ filepath.SplitList ("/usr/sbin:" ++ os.Getenv w "PATH"),
          w.findExecutable (exec.candidate dir "mysqld") ≠ none) := by
  refine ⟨by decide, by decide, ?_⟩
  intro h
  have h2 := (h (sampleWorld emptyEnviron "x" "mysqld" true) (by decide)).2 ""
    (by decide)
  exact h2 (by decide)

/-- C7, amended: BhojpurMysqlRoot fails exactly when BHOJPUR_MYSQL_ROOT is
unset or empty and the locator returns an error for the search path with
"/usr/sbin" prepended; the locator does so when no directory of that path
holds an executable mysqld, and otherwise only when ErrDot is in force and the
first directory that holds one gives a relative path.  Every failure returns
the empty string with the error whose message names BHOJPUR_MYSQL_ROOT. -/
theorem BhojpurMysqlRoot_fails_iff (w : World) :
    ((BhojpurMysqlRoot w).1.2 ≠ none ↔
      os.Getenv w "BHOJPUR_MYSQL_ROOT" = "" ∧
      (exec.LookPath (BhojpurMysqlRoot w).2 "mysqld").2 ≠ none) ∧
    ((BhojpurMysqlRoot w).1.2 ≠ none ↔
      os.Getenv w "BHOJPUR_MYSQL_ROOT" = "" ∧
      ((∀ dir ∈ filepath.SplitList ("/usr/sbin:" ++ os.Getenv w "PATH"),
          w.findExecutable (exec.candidate dir "mysqld") ≠ none) ∨
       (w.execerrdot = true ∧
        ∃ (pre : List String) (dir : String) (post : List String),
          filepath.SplitList ("/usr/sbin:" ++ os.Getenv w "PATH") = pre ++ dir :: post ∧
          (∀ d ∈ pre, w.findExecutable (exec.candidate d "mysqld") ≠ none) ∧
          w.findExecutable (exec.candidate dir "mysqld") = none ∧
          filepath.IsAbs (exec.candidate dir "mysqld") = false))) ∧
    ((BhojpurMysqlRoot w).1.2 ≠ none →
      (BhojpurMysqlRoot w).1 = ("", some (errors.New
        "BHOJPUR_MYSQL_ROOT is not set and no mysqld could be found in your PATH"))) ∧
    mentions "BHOJPUR_MYSQL_ROOT is not set and no mysqld could be found in your PATH"
      "BHOJPUR_MYSQL_ROOT" := by
  refine ⟨?_, ?_, mysqlRoot_error_shape w,
    ⟨"", " is not set and no mysqld could be found in your PATH", by decide⟩⟩
  · rw [mysqlRoot_error_iff]
    constructor
    · rintro ⟨h0, h⟩
      refine ⟨h0, ?_⟩
      rw [mysqlRoot_world_fallback w h0]
      exact h
    · rintro ⟨h0, h⟩
      refine ⟨h0, ?_⟩
      rw [mysqlRoot_world_fallback w h0] at h
      exact h
  · rw [mysqlRoot_error_iff, lookPath_after_setenv, lookIn_err_iff, splitList_usr_sbin]

theorem BhojpurMysqlRoot_fails_iff_witness :
    (BhojpurMysqlRoot (sampleWorld emptyEnviron "x" "" false)).1
      = ("", some (errors.New
          "BHOJPUR_MYSQL_ROOT is not set and no mysqld could be found in your PATH")) :=
  (BhojpurMysqlRoot_fails_iff (sampleWorld emptyEnviron "x" "" false)).2.2.1 (by decide)

/-! ## The database engine base directory -/

/-- C8: BhojpurMysqlBaseDir fails exactly when BHOJPUR_MYSQL_BASEDIR is unset
or empty and the delegated BhojpurMysqlRoot call fails; it then returns the
empty string with one fixed error, whose message names BHOJPUR_MYSQL_BASEDIR
and which is not the error of the root lookup. -/
theorem BhojpurMysqlBaseDir_fails_iff (w : World) :
    ((BhojpurMysqlBaseDir w).1.2 ≠ none ↔
      os.Getenv w "BHOJPUR_MYSQL_BASEDIR" = "" ∧ (BhojpurMysqlRoot w).1.2 ≠ none) ∧
    ((BhojpurMysqlBaseDir w).1.2 ≠ none →
      (BhojpurMysqlBaseDir w).1 = ("", some (errors.New
        "BHOJPUR_MYSQL_BASEDIR is not set. Please set $BHOJPUR_MYSQL_BASEDIR")) ∧
      (BhojpurMysqlBaseDir w).1.2 ≠ (BhojpurMysqlRoot w).1.2) ∧
    mentions "BHOJPUR_MYSQL_BASEDIR is not set. Please set $BHOJPUR_MYSQL_BASEDIR"
      "BHOJPUR_MYSQL_BASEDIR" := by
  have hshape := mysqlRoot_error_shape w
  refine ⟨?_, ?_, ⟨"", " is not set. Please set $BHOJPUR_MYSQL_BASEDIR", by decide⟩⟩
  · unfold BhojpurMysqlBaseDir
    simp only []
    split_ifs with h1
    · simp [h1]
    · have h0 : os.Getenv w "BHOJPUR_MYSQL_BASEDIR" = "" := not_not.1 h1
      rcases hr : BhojpurMysqlRoot w with ⟨⟨r, e⟩, w1⟩
      cases e <;> simp [h0]
  · unfold BhojpurMysqlBaseDir
    simp only []
    split_ifs with h1
    · simp
    · rcases hr : BhojpurMysqlRoot w with ⟨⟨r, e⟩, w1⟩
      rw [hr] at hshape
      cases e with
      | none => simp
      | some e =>
        intro _
        have h2 := hshape (by simp)
        simp only [Prod.mk.injEq, Option.some.injEq] at h2
        refine ⟨rfl, ?_⟩
        simp only [h2.2, ne_eq, Option.some.injEq]
        decide

theorem BhojpurMysqlBaseDir_fails_iff_witness :
    (BhojpurMysqlBaseDir (sampleWorld emptyEnviron "x" "" false)).1
      = ("", some (errors.New
          "BHOJPUR_MYSQL_BASEDIR is not set. Please set $BHOJPUR_MYSQL_BASEDIR")) :=
  ((BhojpurMysqlBaseDir_fails_iff (sampleWorld emptyEnviron "x" "" false)).2.1
    (by decide)).1

/-! ## Repeated calls and the search path -/

/-- C9: a call of BhojpurMysqlRoot made right after another one, in the
process the first call left (same file system, PATH with "/usr/sbin:"
prepended once more), returns the same result as the first call. -/
theorem BhojpurMysqlRoot_idempotent_result (w : World) :
    (BhojpurMysqlRoot (BhojpurMysqlRoot w).2).1 = (BhojpurMysqlRoot w).1 := by
  by_cases h0 : os.Getenv w "BHOJPUR_MYSQL_ROOT" = ""
  · have hw := mysqlRoot_world_fallback w h0
    have h1 : os.Getenv (BhojpurMysqlRoot w).2 "BHOJPUR_MYSQL_ROOT" = "" := by
      rw [hw, getenv_setenv_other _ _ _ _ (by decide), h0]
    have hp : os.Getenv (BhojpurMysqlRoot w).2 "PATH"
        = "/usr/sbin:" ++ os.Getenv w "PATH" := by
      rw [hw, getenv_setenv_same]
    have hlook : exec.LookPath (os.Setenv (BhojpurMysqlRoot w).2 "PATH"
          ("/usr/sbin:" ++ os.Getenv (BhojpurMysqlRoot w).2 "PATH")) "mysqld"
        = exec.LookPath (os.Setenv w "PATH" ("/usr/sbin:" ++ os.Getenv w "PATH"))
          "mysqld" := by
      rw [lookPath_after_setenv, lookPath_after_setenv, hp, split_usr_sbin, lookIn_dup,
        hw, lookIn_setenv]
    generalize (BhojpurMysqlRoot w).2 = w1 at h1 hlook
    unfold BhojpurMysqlRoot
    simp only [h0, h1, hlook]
    rw [if_neg (by simp), if_neg (by simp)]
    rcases exec.LookPath (os.Setenv w "PATH" ("/usr/sbin:" ++ os.Getenv w "PATH"))
      "mysqld" with ⟨p, e⟩
    cases e <;> rfl
  · have h := mysqlRoot_world_override w h0
    rw [h]
    show (BhojpurMysqlRoot w).1 = _
    rw [h]

theorem BhojpurMysqlRoot_idempotent_result_witness :
    (BhojpurMysqlRoot (BhojpurMysqlRoot
        (sampleWorld emptyEnviron "x" "/usr/sbin/mysqld" true)).2).1 = ("/usr", none) := by
  rw [BhojpurMysqlRoot_idempotent_result]
  decide

/-- C10: a call of BhojpurMysqlRoot with a non-empty BHOJPUR_MYSQL_ROOT leaves
the process as it was.  A call with the variable unset or empty leaves PATH
set to "/usr/sbin:" followed by the previous PATH value (found or not), every
other variable as it was, and the rest of the process unchanged; n such calls
in a row prepend "/usr/sbin:" n times. -/
theorem BhojpurMysqlRoot_environment (w : World) :
    (os.Getenv w "BHOJPUR_MYSQL_ROOT" ≠ "" → (BhojpurMysqlRoot w).2 = w) ∧
    (os.Getenv w "BHOJPUR_MYSQL_ROOT" = "" →
      (BhojpurMysqlRoot w).2.environ "PATH"
        = some ("/usr/sbin:" ++ os.Getenv w "PATH") ∧
      (∀ k : String, k ≠ "PATH" → (BhojpurMysqlRoot w).2.environ k = w.environ k) ∧
      (BhojpurMysqlRoot w).2.Args = w.Args ∧
      (BhojpurMysqlRoot w).2.Getwd = w.Getwd ∧
      (BhojpurMysqlRoot w).2.findExecutable = w.findExecutable ∧
      (BhojpurMysqlRoot w).2.execerrdot = w.execerrdot) ∧
    (os.Getenv w "BHOJPUR_MYSQL_ROOT" = "" →
      ∀ n : Nat,
        os.Getenv (Nat.iterate (fun v => (BhojpurMysqlRoot v).2) n w) "PATH"
          = Nat.iterate (fun s => "/usr/sbin:" ++ s) n (os.Getenv w "PATH")) := by
  refine ⟨?_, ?_, ?_⟩
  · intro h0
    rw [mysqlRoot_world_override w h0]
  · intro h0
    rw [mysqlRoot_world_fallback w h0]
    refine ⟨by simp [os.Setenv], ?_, rfl, rfl, rfl, rfl⟩
    intro k hk
    simp [os.Setenv, hk]
  · intro h0 n
    induction n generalizing w with
    | zero => rfl
    | succ n ih =>
      have hw := mysqlRoot_world_fallback w h0
      have h1 : os.Getenv (BhojpurMysqlRoot w).2 "BHOJPUR_MYSQL_ROOT" = "" := by
        rw [hw, getenv_setenv_other _ _ _ _ (by decide), h0]
      have hp : os.Getenv (BhojpurMysqlRoot w).2 "PATH"
          = "/usr/sbin:" ++ os.Getenv w "PATH" := by
        rw [hw, getenv_setenv_same]
      rw [Function.iterate_succ_apply, ih _ h1, hp, Function.iterate_succ_apply]

theorem BhojpurMysqlRoot_environment_witness :
    os.Getenv (BhojpurMysqlRoot (BhojpurMysqlRoot
        (sampleWorld (oneVar "PATH" "/bin") "x" "" true)).2).2 "PATH"
      = "/usr/sbin:/usr/sbin:/bin" := by
  have h := (BhojpurMysqlRoot_environment
    (sampleWorld (oneVar "PATH" "/bin") "x" "" true)).2.2 (by decide) 2
  simp only [Function.iterate_succ, Function.iterate_zero, Function.comp_apply, id_eq] at h
  rw [h]
  decide

end env
